import Mathlib

/-!
# Verification of the data-quality engine (cleaning + validation pipeline)

A shallow embedding of the Python cleaning/validation code
(`clean_orders.py`, `clean_regions.py`, `clean_products.py`, `clean_stores.py`,
`clean_customers.py`, `run_cleaning.py`, `standard_clean.py`, `validation.py`)
into Lean 4, together with theorems settling the specification claims.

Modelling conventions:
* pandas string cells are Lean `String`s; the ASCII fragment of Python's
  `str.lower` / `str.upper` / `str.title` / `str.strip` is modelled on
  `List Char` via an explicit case table.
* numeric cells after `pd.to_numeric(errors="coerce")` are `Option ℚ`
  (`none` is NaN / a missing marker).  A pandas comparison `NaN >= 0`
  evaluates to `False`, which the embedding mirrors.
* `pd.DataFrame` row sequences are Lean lists of row structures (for the
  cleaning functions) or a `Table` of column names, dtypes and value rows
  (for the validator, which is column-generic).
* a pandas `KeyError` caused by an unguarded `df[col]` access on a missing
  column is modelled by `Option`-valued results (`none` = crash).
-/

namespace BIProj

/-! ## Definitions: the shallow embedding of the cleaning and validation code -/

/-- The ASCII case table: each pair is (uppercase letter, lowercase letter). -/
def caseTable : List (Char × Char) :=
  [('A','a'), ('B','b'), ('C','c'), ('D','d'), ('E','e'), ('F','f'), ('G','g'),
   ('H','h'), ('I','i'), ('J','j'), ('K','k'), ('L','l'), ('M','m'), ('N','n'),
   ('O','o'), ('P','p'), ('Q','q'), ('R','r'), ('S','s'), ('T','t'), ('U','u'),
   ('V','v'), ('W','w'), ('X','x'), ('Y','y'), ('Z','z')]

/-- `str.lower` on a single character (ASCII). -/
def lowerChar (c : Char) : Char :=
  match caseTable.find? (fun p => p.1 == c) with
  | some p => p.2
  | none => c

/-- `str.upper` on a single character (ASCII). -/
def upperChar (c : Char) : Char :=
  match caseTable.find? (fun p => p.2 == c) with
  | some p => p.1
  | none => c

/-- ASCII uppercase letter test. -/
def isUpC (c : Char) : Bool := (caseTable.find? (fun p => p.1 == c)).isSome

/-- ASCII lowercase letter test. -/
def isLowC (c : Char) : Bool := (caseTable.find? (fun p => p.2 == c)).isSome

/-- alphabetic test, as used by Python `str.title` word boundaries. -/
def isAlphaC (c : Char) : Bool := isUpC c || isLowC c

/-- whitespace test (the characters Python `str.strip` removes). -/
def wsChar (c : Char) : Bool :=
  c == ' ' || c == '\t' || c == '\n' || c == '\r' || c == '\x0b' || c == '\x0c'

/-- `str.lower` over the characters of a cell. -/
def lowerList (l : List Char) : List Char := l.map lowerChar

/-- `str.strip`: drop whitespace from both ends. -/
def trimList (l : List Char) : List Char := List.rdropWhile wsChar (l.dropWhile wsChar)

/-- `str.title` scanner: `prev` records whether the previous character was
alphabetic; an alphabetic character after a non-alphabetic one is uppercased,
any other alphabetic character is lowercased. -/
def titleAux (prev : Bool) : List Char → List Char
  | [] => []
  | c :: cs =>
    (if isAlphaC c then (if prev then lowerChar c else upperChar c) else c)
      :: titleAux (isAlphaC c) cs

/-- `str.title` over the characters of a cell. -/
def titleList (l : List Char) : List Char := titleAux false l

/-- `.str.lower().str.strip()` as used for `order_status` / `order_type` /
`customer_segment`. -/
def lowerStrip (s : String) : String := ⟨trimList (lowerList s.data)⟩

/-- `.str.strip().str.title()` as used for names / cities / categories. -/
def stripTitle (s : String) : String := ⟨titleList (trimList s.data)⟩

/-- `.str.strip().str.upper()` as used for `state`. -/
def stripUpper (s : String) : String := ⟨(trimList s.data).map upperChar⟩

/-- decimal digit test. -/
def isDigC (c : Char) : Bool := '0' ≤ c && c ≤ '9'

/-- value of a decimal digit character. -/
def digVal (c : Char) : Nat := c.toNat - 48

/-- decimal digit character of `d` (callers only use `d < 10`). -/
def digChar (d : Nat) : Char :=
  if d = 0 then '0' else if d = 1 then '1' else if d = 2 then '2'
  else if d = 3 then '3' else if d = 4 then '4' else if d = 5 then '5'
  else if d = 6 then '6' else if d = 7 then '7' else if d = 8 then '8' else '9'

/-- numeric value of a run of decimal digit characters (`astype(int)`). -/
def digsVal (cs : List Char) : Nat := cs.foldl (fun a c => a * 10 + digVal c) 0

/-- fuel-driven decimal rendering of a natural number; `fuel ≥ n` always
suffices because the number of digits of `n` is at most `n`. -/
def natDigsAux : Nat → Nat → List Char
  | 0, _ => []
  | fuel + 1, n =>
    if n < 10 then [digChar n] else natDigsAux fuel (n / 10) ++ [digChar (n % 10)]

/-- decimal digit characters of a natural number (`str(int)`): no sign, no
leading zeros. -/
def natDigs (n : Nat) : List Char := natDigsAux (n + 1) n

/-- `str(int)` as a `String`. -/
def natStr (n : Nat) : String := ⟨natDigs n⟩

/-- the first run of decimal digits in a cell, i.e. the capture of the first
match of the regex `(\d+)`; `none` when the cell has no digit. -/
def firstRun : List Char → Option (List Char)
  | [] => none
  | c :: cs => if isDigC c then some ((c :: cs).takeWhile isDigC) else firstRun cs

/-- `clean_orders.standardize_id` (per cell): extract the first run of digits
(`str.extract(r"(\d+)")`), `fillna('0')`, `astype(int).astype(str)`, and
prepend the prefix and a dash.  The same expression is inlined in
`clean_customers.py`, `clean_products.py` and `clean_stores.py`. -/
def standardize_id (s : String) (pre : String) : String :=
  let ds := (firstRun s.data).getD ['0']
  pre ++ "-" ++ natStr (digsVal ds)

/-- An order-line row.  String cells are `String`s (pandas `astype(str)` has
already happened conceptually: a raw NaN reads as the digitless text `"nan"`);
the four numeric cells carry the result of `pd.to_numeric(errors="coerce")`,
`none` being NaN. -/
structure OrderRow where
  order_code : String
  customer_code : String
  store_code : String
  product_code : String
  order_status : String
  order_type : String
  line_number : Option ℚ
  quantity : Option ℚ
  unit_price : Option ℚ
  unit_cost : Option ℚ
deriving DecidableEq

/-- the `f"ord-{new_num}"` literal used when reassigning colliding keys. -/
def mkOrd (n : Nat) : String := "ord-" ++ natStr n

/-- digit extraction applied to an `order_code`
(`str.extract(r"(\d+)")[0].fillna("0").astype(int)`). -/
def orderNumOf (s : String) : Nat := digsVal ((firstRun s.data).getD ['0'])

/-- per-row field normalization of `clean_orders` (status/type casing and the
four `standardize_id` applications). -/
def normalizeOrderRow (r : OrderRow) : OrderRow :=
  { r with
    order_status := lowerStrip r.order_status
    order_type := lowerStrip r.order_type
    order_code := standardize_id r.order_code "ord"
    customer_code := standardize_id r.customer_code "cust"
    store_code := standardize_id r.store_code "store"
    product_code := standardize_id r.product_code "prd" }

/-- a pandas comparison `series >= 0` on a coerced numeric cell: NaN compares
`False`. -/
def geZero (v : Option ℚ) : Bool :=
  match v with
  | some q => decide (0 ≤ q)
  | none => false

/-- the four row filters of `clean_orders`, applied in source order:
`df[df["unit_cost"].notna()]`, `df[df["quantity"] >= 0]`,
`df[df["unit_price"] >= 0]`, `df[df["unit_cost"] >= 0]`. -/
def orderFilterStage (rows : List OrderRow) : List OrderRow :=
  (((rows.filter (fun r => r.unit_cost.isSome)).filter
      (fun r => geZero r.quantity)).filter
      (fun r => geZero r.unit_price)).filter
      (fun r => geZero r.unit_cost)

/-- the single-predicate form of the four sequential filters. -/
def keepOrder (r : OrderRow) : Bool :=
  r.unit_cost.isSome && geZero r.quantity && geZero r.unit_price && geZero r.unit_cost

/-- the uniqueness key of an order line. -/
def orderKey (r : OrderRow) : String × Option ℚ := (r.order_code, r.line_number)

/-- `df["order_code"]... .astype(int).max()` over the whole (filtered) table,
`0` for an empty table. -/
def maxOrderNum (rows : List OrderRow) : Nat :=
  (rows.map (fun r => orderNumOf r.order_code)).foldl max 0

/-- `df.duplicated(subset=["order_code", "line_number"], keep="first")`:
a `Bool` per row, `true` exactly on occurrences after the first; computed
against the original keys (`seen` accumulates every key scanned so far). -/
def duplicatedMaskAux (seen : List (String × Option ℚ)) :
    List OrderRow → List Bool
  | [] => []
  | r :: rs => decide (orderKey r ∈ seen) :: duplicatedMaskAux (orderKey r :: seen) rs

/-- the reassignment loop
`for offset, idx in enumerate(dup_indices, start=1): df.at[idx, "order_code"] = f"ord-{max_order_num + offset}"`:
walk the rows together with the duplicate mask; each flagged row is the next
collision and gets `mkOrd (maxN + k)` with `k` counting up from `1`. -/
def assignNewAux (maxN : Nat) : List OrderRow → List Bool → Nat → List OrderRow
  | [], _, _ => []
  | r :: rs, true :: fs, k =>
    { r with order_code := mkOrd (maxN + k) } :: assignNewAux maxN rs fs (k + 1)
  | r :: rs, false :: fs, k => r :: assignNewAux maxN rs fs k
  | r :: rs, [], _ => r :: rs

/-- the whole renumbering block of `clean_orders` (lines 49–62). -/
def renumberOrders (rows : List OrderRow) : List OrderRow :=
  assignNewAux (maxOrderNum rows) rows (duplicatedMaskAux [] rows) 1

/-- `clean_orders`: normalize each row, filter, renumber. -/
def cleanOrders (rows : List OrderRow) : List OrderRow :=
  renumberOrders (orderFilterStage (rows.map normalizeOrderRow))

/-- Modelled from the spec words (§4.2): scan rows in table order keeping the
set of keys already seen; the first occurrence of each key is untouched, the
`k`-th subsequent collision (in scan order, `k` starting at `1`) is assigned
`order_code = "ord-" + (maxN + k)` with `line_number` unchanged. -/
def specRenumberAux (maxN : Nat) (seen : List (String × Option ℚ)) (k : Nat) :
    List OrderRow → List OrderRow
  | [] => []
  | r :: rs =>
    if orderKey r ∈ seen then
      { r with order_code := mkOrd (maxN + k) }
        :: specRenumberAux maxN (orderKey r :: seen) (k + 1) rs
    else
      r :: specRenumberAux maxN (orderKey r :: seen) k rs

/-- Modelled from the spec words (§4.2): one-pass renumbering with the global
max order number of the table. -/
def specRenumber (rows : List OrderRow) : List OrderRow :=
  specRenumberAux (maxOrderNum rows) [] 1 rows

/-- A canonical-form order row used in the claim's worked example
(`("ord-5", 1)` with all other fields valid). -/
def exOrd5 : OrderRow :=
  { order_code := "ord-5", customer_code := "cust-1", store_code := "store-1",
    product_code := "prd-1", order_status := "delivered", order_type := "online",
    line_number := some 1, quantity := some 1, unit_price := some 1,
    unit_cost := some 1 }

/-- prefix test on character lists. -/
def isPre : List Char → List Char → Bool
  | [], _ => true
  | _ :: _, [] => false
  | p :: ps, c :: cs => p == c && isPre ps cs

/-- fuel-driven `str.replace(pat, "", -1)` (Python `str.replace` removing every
non-overlapping occurrence, scanning left to right and resuming after each
match).  One unit of fuel is spent per consumed character, so
`fuel = length` suffices. -/
def removeAllAux (pat : List Char) : Nat → List Char → List Char
  | _, [] => []
  | 0, l => l
  | fuel + 1, c :: cs =>
    if isPre pat (c :: cs) then removeAllAux pat fuel ((c :: cs).drop pat.length)
    else c :: removeAllAux pat fuel cs

/-- Python `s.replace(pat, "")`. -/
def removeAll (pat l : List Char) : List Char := removeAllAux pat l.length l

/-- the region-name normalization used identically by `clean_regions.py` and
`clean_stores.py`:
`.astype(str).str.lower().str.replace("region", "", regex=False).str.strip().str.title()`. -/
def normalizeRegionName (s : String) : String :=
  ⟨titleList (trimList (removeAll "region".data (lowerList s.data)))⟩

/-- A region row. -/
structure RegionRow where
  region_code : String
  region_name : String
  active_flag : String
deriving DecidableEq

/-- `clean_regions`: normalize `region_name`; nothing else (in particular, no
deduplication of `region_code`). -/
def cleanRegions (rows : List RegionRow) : List RegionRow :=
  rows.map (fun r => { r with region_name := normalizeRegionName r.region_name })

/-- A product row (`base_price` already numerically coerced). -/
structure ProductRow where
  product_code : String
  product_name : String
  category : String
  base_price : Option ℚ
  active_flag : String
deriving DecidableEq

/-- `df.drop_duplicates(subset=[key], keep="first")`: keep a row iff its key
has not been seen earlier in table order. -/
def dropDupAux {α β : Type} [DecidableEq β] (key : α → β) (seen : List β) :
    List α → List α
  | [] => []
  | r :: rs =>
    if key r ∈ seen then dropDupAux key seen rs
    else r :: dropDupAux key (key r :: seen) rs

/-- `drop_duplicates` keyed by `key`, keeping first occurrences. -/
def dropDupBy {α β : Type} [DecidableEq β] (key : α → β) (l : List α) : List α :=
  dropDupAux key [] l

/-- per-row field normalization of `clean_products` (string clean-up and
`product_code` standardization). -/
def normalizeProductRow (r : ProductRow) : ProductRow :=
  { r with
    product_name := stripTitle r.product_name
    category := stripTitle r.category
    product_code := standardize_id r.product_code "prd" }

/-- the normalization-and-filter part of `clean_products` (everything before
`drop_duplicates`): `df[df["base_price"].notna()]` then
`df[df["base_price"] >= 0]`. -/
def cleanProductsPre (rows : List ProductRow) : List ProductRow :=
  ((rows.map normalizeProductRow).filter
    (fun r => r.base_price.isSome)).filter (fun r => geZero r.base_price)

/-- the single-predicate form of the two `base_price` filters. -/
def keepProduct (r : ProductRow) : Bool :=
  r.base_price.isSome && geZero r.base_price

/-- `clean_products`. -/
def cleanProducts (rows : List ProductRow) : List ProductRow :=
  dropDupBy (fun r => r.product_code) (cleanProductsPre rows)

/-- A store row (`square_feet` already numerically coerced; the date columns
pass through cleaning untouched and are kept as opaque strings). -/
structure StoreRow where
  store_code : String
  store_name : String
  city : String
  state : String
  region_name : String
  open_date : String
  close_date : String
  square_feet : Option ℚ
deriving DecidableEq

/-- a pandas comparison `series >= 1` on a coerced numeric cell. -/
def geOne (v : Option ℚ) : Bool :=
  match v with
  | some q => decide (1 ≤ q)
  | none => false

/-- per-row field normalization of `clean_stores`. -/
def normalizeStoreRow (r : StoreRow) : StoreRow :=
  { r with
    state := stripUpper r.state
    region_name := normalizeRegionName r.region_name
    store_code := standardize_id r.store_code "store"
    city := stripTitle r.city
    store_name := stripTitle r.store_name }

/-- the normalization-and-filter part of `clean_stores` (everything before
`drop_duplicates`): `df[df["square_feet"].notna()]` then
`df[df["square_feet"] >= 1]`. -/
def cleanStoresPre (rows : List StoreRow) : List StoreRow :=
  ((rows.map normalizeStoreRow).filter
    (fun r => r.square_feet.isSome)).filter (fun r => geOne r.square_feet)

/-- the single-predicate form of the two `square_feet` filters. -/
def keepStore (r : StoreRow) : Bool :=
  r.square_feet.isSome && geOne r.square_feet

/-- `clean_stores`. -/
def cleanStores (rows : List StoreRow) : List StoreRow :=
  dropDupBy (fun r => r.store_code) (cleanStoresPre rows)

/-- A customer row. -/
structure CustomerRow where
  customer_code : String
  signup_date : String
  customer_segment : String
  email : String
  loyalty_id : String
deriving DecidableEq

/-- the normalization part of `clean_customers` (everything before
`drop_duplicates`). -/
def cleanCustomersPre (rows : List CustomerRow) : List CustomerRow :=
  rows.map (fun r =>
    { r with
      customer_code := standardize_id r.customer_code "cust"
      customer_segment := lowerStrip r.customer_segment })

/-- `clean_customers`. -/
def cleanCustomers (rows : List CustomerRow) : List CustomerRow :=
  dropDupBy (fun r => r.customer_code) (cleanCustomersPre rows)

/-- Modelled from the spec words (§4.2): "uniqueness key = primary business
key; on duplicate, keep the first occurrence in table order, drop the rest":
the output keys are duplicate-free, the output is a sub-sequence of the
input, no key is lost, and every output row is the first input row bearing
its key. -/
def firstSeenWins {α β : Type} [DecidableEq β] (key : α → β)
    (inp out : List α) : Prop :=
  (out.map key).Nodup ∧
  out.Sublist inp ∧
  (∀ r ∈ inp, key r ∈ out.map key) ∧
  (∀ r ∈ out, inp.find? (fun x => decide (key x = key r)) = some r)

/-- two raw region rows sharing `region_code` (their names differ). -/
def exRegionA : RegionRow :=
  { region_code := "r1", region_name := "north region", active_flag := "Y" }

/-- second raw region row with the same `region_code`. -/
def exRegionB : RegionRow :=
  { region_code := "r1", region_name := "south region", active_flag := "Y" }

/-- the row-retention predicate of the referential-integrity block of
`run_cleaning` (lines 43–55):
`(store_code.isin(valid_store_codes) | store_code == "store-0") & (product_code.isin(valid_product_codes) | product_code == "prd-0")`. -/
def riKeep (r : OrderRow) (stores : List StoreRow) (products : List ProductRow) : Bool :=
  ((stores.map (fun s => s.store_code)).contains r.store_code
      || r.store_code == "store-0")
    && ((products.map (fun p => p.product_code)).contains r.product_code
      || r.product_code == "prd-0")

/-- the Referential Integrity Enforcer: filter the cleaned orders against the
cleaned store/product key sets; the dimension tables are consumed read-only. -/
def enforceRI (orders : List OrderRow) (stores : List StoreRow)
    (products : List ProductRow) : List OrderRow :=
  orders.filter (fun r => riKeep r stores products)

/-- Modelled from the spec words (§4.3): retain a row iff its `store_code` is
the sentinel or appears among the cleaned stores' codes, and its
`product_code` is the sentinel or appears among the cleaned products' codes. -/
def specRetainRI (r : OrderRow) (stores : List StoreRow)
    (products : List ProductRow) : Prop :=
  (r.store_code = "store-0" ∨ r.store_code ∈ stores.map (fun s => s.store_code)) ∧
  (r.product_code = "prd-0" ∨ r.product_code ∈ products.map (fun p => p.product_code))

instance (r : OrderRow) (stores : List StoreRow) (products : List ProductRow) :
    Decidable (specRetainRI r stores products) := by
  unfold specRetainRI
  infer_instance

/-- an order row that is valid in every respect except that `quantity` is
missing after numeric coercion. -/
def exMissingQty : OrderRow :=
  { order_code := "ord-1", customer_code := "cust-1", store_code := "store-1",
    product_code := "prd-1", order_status := "delivered", order_type := "online",
    line_number := some 1, quantity := none, unit_price := some 1,
    unit_cost := some 1 }

/-- an order row that is valid in every respect except that `line_number` is
`0`, i.e. below the claimed floor of `1`. -/
def exLineZero : OrderRow :=
  { order_code := "ord-1", customer_code := "cust-1", store_code := "store-1",
    product_code := "prd-1", order_status := "delivered", order_type := "online",
    line_number := some 0, quantity := some 1, unit_price := some 1,
    unit_cost := some 1 }

/-- the claim's worked example region row (`"North Region "`). -/
def exNorthRegion : RegionRow :=
  { region_code := "r9", region_name := "North Region ", active_flag := "Y" }

/-- a typed cell of a loaded table (`null` is NaN/NaT/`<NA>`). -/
inductive Value where
  | null : Value
  | str (s : String) : Value
  | num (q : ℚ) : Value
  | dt (t : Int) : Value
deriving DecidableEq

/-- the realized dtype of a loaded column. -/
inductive Dtype where
  | string : Dtype
  | integer : Dtype
  | float : Dtype
  | datetime : Dtype
  | obj : Dtype
deriving DecidableEq

/-- a loaded table: column names, per-column realized dtypes, and rows of
cells (the three lists parallel). -/
structure Table where
  cols : List String
  dtypes : List Dtype
  rows : List (List Value)

/-- index of a column name in the table's column list. -/
def colIdx (t : Table) (c : String) : Option Nat :=
  t.cols.findIdx? (fun x => x == c)

/-- `col in df.columns`. -/
def hasCol (t : Table) (c : String) : Bool := (colIdx t c).isSome

/-- `df[col]` as the list of that column's cells; `none` models the
`KeyError` pandas raises when the column is absent. -/
def getColVals (t : Table) (c : String) : Option (List Value) :=
  (colIdx t c).map (fun i => t.rows.map (fun r => r.getD i Value.null))

/-- the realized dtype of a column. -/
def getColDtype (t : Table) (c : String) : Option Dtype :=
  (colIdx t c).bind (fun i => t.dtypes.get? i)

/-- a schema descriptor: one entry of `validation.SCHEMAS`. -/
structure Schema where
  required_columns : List String
  allow_nulls : List String := []
  strings : List String := []
  ints : List String := []
  floats : List String := []
  datetimes : List String := []
  unique_keys : List (List String) := []
  allowed_values : List (String × List Value) := []
  min_values : List (String × ℚ) := []

/-- `SCHEMAS["regions"]`. -/
def regionsSchema : Schema :=
  { required_columns := ["region_code", "region_name", "active_flag"]
    strings := ["region_code", "region_name", "active_flag"]
    unique_keys := [["region_code"], ["region_name"]]
    allowed_values := [("active_flag", [Value.str "Y", Value.str "N"])] }

/-- `SCHEMAS["products"]`. -/
def productsSchema : Schema :=
  { required_columns :=
      ["product_code", "product_name", "category", "base_price", "active_flag"]
    strings := ["product_code", "product_name", "category", "active_flag"]
    floats := ["base_price"]
    unique_keys := [["product_code"]]
    allowed_values := [("active_flag", [Value.str "Y", Value.str "N"])]
    min_values := [("base_price", 0)] }

/-- `SCHEMAS["stores"]`. -/
def storesSchema : Schema :=
  { required_columns :=
      ["store_code", "store_name", "city", "state", "region_name",
       "open_date", "close_date", "square_feet"]
    allow_nulls := ["close_date"]
    strings := ["store_code", "store_name", "city", "state", "region_name"]
    floats := ["square_feet"]
    datetimes := ["open_date", "close_date"]
    unique_keys := [["store_code"]]
    min_values := [("square_feet", 1)] }

/-- `SCHEMAS["customers"]`. -/
def customersSchema : Schema :=
  { required_columns :=
      ["customer_code", "signup_date", "customer_segment", "email", "loyalty_id"]
    allow_nulls := ["loyalty_id", "email"]
    strings := ["customer_code", "customer_segment", "email", "loyalty_id"]
    datetimes := ["signup_date"]
    unique_keys := [["customer_code"]] }

/-- `SCHEMAS["orders"]`. -/
def ordersSchema : Schema :=
  { required_columns :=
      ["order_code", "order_ts", "delivery_ts", "store_code", "customer_code",
       "order_type", "order_status", "line_number", "product_code",
       "quantity", "unit_price", "unit_cost"]
    allow_nulls := ["delivery_ts"]
    strings := ["order_code", "store_code", "customer_code", "order_type",
      "order_status", "product_code"]
    ints := ["line_number", "quantity"]
    floats := ["unit_price", "unit_cost"]
    datetimes := ["order_ts", "delivery_ts"]
    unique_keys := [["order_code", "line_number"]]
    min_values :=
      [("line_number", 1), ("quantity", 0), ("unit_price", 0), ("unit_cost", 0)] }

/-- `validate_schema`: every required column present (extra columns only warn
and do not affect the verdict). -/
def validateSchema (sch : Schema) (t : Table) : Bool :=
  sch.required_columns.all (fun c => hasCol t c)

/-- `validate_nulls`: for every required, present, not-null-exempt column, no
cell is missing (absent columns are skipped by `continue`). -/
def validateNulls (sch : Schema) (t : Table) : Bool :=
  sch.required_columns.all (fun c =>
    match getColVals t c with
    | none => true
    | some vs =>
      if sch.allow_nulls.contains c then true
      else !(vs.any (fun v => decide (v = Value.null))))

/-- `validate_dtypes`: each declared column present in the table must carry
its declared realized dtype (floats also accept integer); absent columns are
skipped by the `col in df.columns` guard. -/
def validateDtypes (sch : Schema) (t : Table) : Bool :=
  sch.strings.all (fun c =>
    match getColDtype t c with
    | none => true
    | some d => decide (d = Dtype.string)) &&
  sch.ints.all (fun c =>
    match getColDtype t c with
    | none => true
    | some d => decide (d = Dtype.integer)) &&
  sch.floats.all (fun c =>
    match getColDtype t c with
    | none => true
    | some d => decide (d = Dtype.float) || decide (d = Dtype.integer)) &&
  sch.datetimes.all (fun c =>
    match getColDtype t c with
    | none => true
    | some d => decide (d = Dtype.datetime))

/-- `validate_allowed_values`: every non-missing cell of a constrained,
present column belongs to the allowed set (absent columns skipped). -/
def validateAllowedValues (sch : Schema) (t : Table) : Bool :=
  sch.allowed_values.all (fun cv =>
    match getColVals t cv.1 with
    | none => true
    | some vs => vs.all (fun v => decide (v = Value.null) || decide (v ∈ cv.2)))

/-- `validate_min_values`: every non-missing numeric cell of a floored,
present column is at or above the floor (absent columns skipped; nulls
ignored). -/
def validateMinValues (sch : Schema) (t : Table) : Bool :=
  sch.min_values.all (fun cm =>
    match getColVals t cm.1 with
    | none => true
    | some vs =>
      vs.all (fun v =>
        match v with
        | Value.num q => decide (cm.2 ≤ q)
        | _ => true))

/-- duplicate test on a list of projected key rows
(`df.duplicated(subset=cols, keep=False).any()`). -/
def hasDupRows : List (List Value) → Bool
  | [] => false
  | x :: xs => decide (x ∈ xs) || hasDupRows xs

/-- the projection of one row onto a key tuple (callers guard that every key
column is present). -/
def projectRow (t : Table) (key : List String) (r : List Value) : List Value :=
  key.map (fun c => r.getD ((colIdx t c).getD 0) Value.null)

/-- `validate_uniqueness`: no two rows share identical values across any
declared key tuple; a tuple with any absent column is skipped. -/
def validateUniqueness (sch : Schema) (t : Table) : Bool :=
  sch.unique_keys.all (fun key =>
    if key.any (fun c => !(hasCol t c)) then true
    else !(hasDupRows (t.rows.map (projectRow t key))))

/-- one foreign-key sub-check of `validate_referential_integrity`: no
non-null FK value may fall outside the dimension key column unless it is the
sentinel. -/
def fkOk (vals dims : List Value) (sentinel : String) : Bool :=
  !(vals.any (fun v =>
    !(decide (v = Value.null)) && !(decide (v ∈ dims)) &&
      !(decide (v = Value.str sentinel))))

/-- the `stores.region_name -> regions.region_name` sub-check (no sentinel). -/
def fkOkPlain (vals dims : List Value) : Bool :=
  !(vals.any (fun v => !(decide (v = Value.null)) && !(decide (v ∈ dims))))

/-- `validate_referential_integrity`: the four FK checks over the five loaded
tables.  The source indexes `orders["store_code"]` etc. without guarding for
presence, so a missing FK column raises a `KeyError`, modelled as `none`. -/
def validateReferentialIntegrity (regions products stores customers orders : Table) :
    Option Bool :=
  match getColVals orders "store_code", getColVals stores "store_code",
      getColVals orders "customer_code", getColVals customers "customer_code",
      getColVals orders "product_code", getColVals products "product_code",
      getColVals stores "region_name", getColVals regions "region_name" with
  | some osc, some ssc, some occ, some ccc, some opc, some ppc, some srn, some rrn =>
    some (fkOk osc ssc "store-0" && fkOk occ ccc "cust-0" &&
      fkOk opc ppc "prd-0" && fkOkPlain srn rrn)
  | _, _, _, _, _, _, _, _ => none

/-- the six per-table checks of `run_validation`'s loop, conjoined with
`&=` (bitwise and: every check is evaluated regardless of earlier failures). -/
def tableOk (sch : Schema) (t : Table) : Bool :=
  validateSchema sch t && validateNulls sch t && validateDtypes sch t &&
  validateAllowedValues sch t && validateMinValues sch t && validateUniqueness sch t

/-- `run_validation` up to the final verdict: all per-table checks over the
five tables, then the cross-table check (whose `KeyError` propagates). -/
def runValidation (regions products stores customers orders : Table) : Option Bool :=
  match validateReferentialIntegrity regions products stores customers orders with
  | none => none
  | some ri =>
    some (tableOk regionsSchema regions && tableOk productsSchema products &&
      tableOk storesSchema stores && tableOk customersSchema customers &&
      tableOk ordersSchema orders && ri)

/-- the final verdict: `raise SystemExit(...)` when any check failed (after
all checks have been evaluated), success otherwise. -/
def runValidationVerdict (regions products stores customers orders : Table) :
    Option (Except String Unit) :=
  (runValidation regions products stores customers orders).map (fun ok =>
    if ok then Except.ok ()
    else Except.error "Validation failed. Fix issues before loading to DB.")

/-- a minimal loaded regions table carrying the FK column. -/
def wRegions : Table := ⟨["region_name"], [Dtype.string], []⟩

/-- a minimal loaded products table carrying the FK column. -/
def wProducts : Table := ⟨["product_code"], [Dtype.string], []⟩

/-- a minimal loaded stores table carrying the FK columns. -/
def wStores : Table := ⟨["store_code", "region_name"], [Dtype.string, Dtype.string], []⟩

/-- a minimal loaded customers table carrying the FK column. -/
def wCustomers : Table := ⟨["customer_code"], [Dtype.string], []⟩

/-- a minimal loaded orders table carrying the FK columns. -/
def wOrders : Table :=
  ⟨["store_code", "customer_code", "product_code"],
   [Dtype.string, Dtype.string, Dtype.string], []⟩

/-- a regions table that is missing the required `region_code` column AND has
a duplicated `region_name` key. -/
def wBadRegions : Table :=
  ⟨["region_name", "active_flag"], [Dtype.string, Dtype.string],
   [[Value.str "N", Value.str "Y"], [Value.str "N", Value.str "Y"]]⟩

/-- an orders table missing the `store_code` FK column (structurally
invalid). -/
def wBadOrders : Table :=
  ⟨["customer_code", "product_code"], [Dtype.string, Dtype.string], []⟩

/-- a loaded orders table whose only column is a `line_number` holding `0`. -/
def wLineZeroTable : Table := ⟨["line_number"], [Dtype.integer], [[Value.num 0]]⟩

/-- substring test: does `pat` occur in `l`? -/
def containsSub (l pat : List Char) : Bool :=
  match l with
  | [] => pat.isEmpty
  | _ :: cs => isPre pat l || containsSub cs pat

/-- `"date" in col.lower() or "_ts" in col.lower()`: the column-selection
predicate of `auto_parse_dates`. -/
def dateColName (c : String) : Bool :=
  containsSub (lowerList c.data) "date".data ||
    containsSub (lowerList c.data) "_ts".data

/-- `pd.to_datetime(col, format="mixed", errors="coerce")` per cell, with the
parser left abstract: an unparseable entry (`none`) becomes a missing value
(`NaT`, modelled `Value.null`). -/
def coerceDate (parse : Value → Option Int) (v : Value) : Value :=
  match parse v with
  | some ts => Value.dt ts
  | none => Value.null

/-- `auto_parse_dates` on one table: every column whose (lower-cased) name
contains `"date"` or `"_ts"` is parsed to datetime (its dtype becomes
datetime64); every other column is untouched; the row list is rebuilt from a
copy (`df.copy()`), never mutated in place. -/
def autoParseDatesTable (parse : Value → Option Int) (t : Table) : Table :=
  { cols := t.cols
    dtypes := List.zipWith
      (fun c d => if dateColName c then Dtype.datetime else d) t.cols t.dtypes
    rows := t.rows.map (fun r =>
      List.zipWith (fun c v => if dateColName c then coerceDate parse v else v)
        t.cols r) }

/-- `auto_parse_dates` over the list of the five raw tables. -/
def auto_parse_dates (parse : Value → Option Int) (dfs : List Table) : List Table :=
  dfs.map (autoParseDatesTable parse)

/-! ## Theorems: supporting lemmas and the claim theorems -/

theorem digChar_isDig (d : Nat) : isDigC (digChar d) = true := by
  unfold digChar
  repeat' split
  all_goals decide

theorem digVal_digChar {d : Nat} (h : d < 10) : digVal (digChar d) = d := by
  interval_cases d <;> decide

theorem natDigsAux_ne_nil {fuel n : Nat} (h : 0 < fuel) : natDigsAux fuel n ≠ [] := by
  cases fuel with
  | zero => omega
  | succ f =>
    unfold natDigsAux
    split
    · simp
    · simp

theorem digsVal_append_last (cs : List Char) (c : Char) :
    digsVal (cs ++ [c]) = digsVal cs * 10 + digVal c := by
  simp [digsVal, List.foldl_append]

theorem digsVal_natDigsAux : ∀ fuel n, n < fuel → digsVal (natDigsAux fuel n) = n := by
  intro fuel
  induction fuel with
  | zero => intro n h; omega
  | succ f ih =>
    intro n h
    unfold natDigsAux
    split
    · next h10 =>
      simp [digsVal]
      exact digVal_digChar h10
    · next h10 =>
      push_neg at h10
      have hdiv : n / 10 < f := by
        have h1 : n / 10 < n := Nat.div_lt_self (by omega) (by omega)
        omega
      rw [digsVal_append_last, ih _ hdiv, digVal_digChar (Nat.mod_lt _ (by omega))]
      omega

/-- `astype(int)` inverts `str(int)`. -/
theorem digsVal_natDigs (n : Nat) : digsVal (natDigs n) = n :=
  digsVal_natDigsAux (n + 1) n (by omega)

theorem natDigsAux_all_dig : ∀ fuel n, (natDigsAux fuel n).all isDigC = true := by
  intro fuel
  induction fuel with
  | zero => intro n; simp [natDigsAux]
  | succ f ih =>
    intro n
    unfold natDigsAux
    split
    · simp [digChar_isDig]
    · simp only [List.all_append, ih (n / 10)]
      simp [digChar_isDig]

theorem natDigs_all_dig (n : Nat) : (natDigs n).all isDigC = true :=
  natDigsAux_all_dig (n + 1) n

theorem natDigs_ne_nil (n : Nat) : natDigs n ≠ [] :=
  natDigsAux_ne_nil (by omega)

theorem natDigsAux_head_ne_zero :
    ∀ fuel n, 0 < n → n < fuel → (natDigsAux fuel n).head? ≠ some '0' := by
  intro fuel
  induction fuel with
  | zero => intro n _ h; omega
  | succ f ih =>
    intro n hn h
    unfold natDigsAux
    split
    · next h10 =>
      simp only [List.head?_cons]
      intro hc
      have : digChar n = '0' := by simpa using hc
      interval_cases n <;> simp_all [digChar]
    · next h10 =>
      push_neg at h10
      have hne : natDigsAux f (n / 10) ≠ [] := by
        apply natDigsAux_ne_nil
        omega
      obtain ⟨x, xs, hx⟩ := List.exists_cons_of_ne_nil hne
      have hdiv0 : 0 < n / 10 := Nat.div_pos h10 (by omega)
      have hdivf : n / 10 < f := by
        have h1 : n / 10 < n := Nat.div_lt_self (by omega) (by omega)
        omega
      have := ih (n / 10) hdiv0 hdivf
      rw [hx] at this ⊢
      simpa using this

/-- `str(int)` has no leading zero (unless the number is `0`). -/
theorem natDigs_head_ne_zero {n : Nat} (h : 0 < n) : (natDigs n).head? ≠ some '0' :=
  natDigsAux_head_ne_zero (n + 1) n h (by omega)

theorem firstRun_none_of_no_digit :
    ∀ l : List Char, (∀ c ∈ l, isDigC c = false) → firstRun l = none := by
  intro l h
  induction l with
  | nil => rfl
  | cons c cs ih =>
    unfold firstRun
    rw [h c (by simp)]
    simp only [Bool.false_eq_true, if_false]
    exact ih fun x hx => h x (by simp [hx])

theorem orderFilterStage_eq_filter (rows : List OrderRow) :
    orderFilterStage rows = rows.filter keepOrder := by
  unfold orderFilterStage
  rw [List.filter_filter, List.filter_filter, List.filter_filter]
  apply List.filter_congr
  intro r _
  unfold keepOrder
  cases h : r.unit_cost.isSome <;> cases h2 : geZero r.quantity <;>
    cases h3 : geZero r.unit_price <;> cases h4 : geZero r.unit_cost <;> simp_all

theorem firstRun_append_no_digit (l1 l2 : List Char)
    (h : ∀ c ∈ l1, isDigC c = false) : firstRun (l1 ++ l2) = firstRun l2 := by
  induction l1 with
  | nil => simp
  | cons c cs ih =>
    have hc := h c (by simp)
    simp only [List.cons_append, firstRun, hc, Bool.false_eq_true, if_false]
    exact ih fun x hx => h x (by simp [hx])

theorem firstRun_all_dig (ds : List Char) (hne : ds ≠ [])
    (hall : ds.all isDigC = true) : firstRun ds = some ds := by
  cases ds with
  | nil => exact absurd rfl hne
  | cons c cs =>
    have hc : isDigC c = true := by
      simp only [List.all_cons, Bool.and_eq_true] at hall
      exact hall.1
    unfold firstRun
    rw [hc]
    simp only [if_true]
    congr 1
    rw [List.takeWhile_eq_self_iff]
    intro x hx
    simp only [List.all_eq_true] at hall
    exact hall x hx

theorem data_mkOrd (n : Nat) : (mkOrd n).data = ['o','r','d','-'] ++ natDigs n := by
  have : ("ord-" : String).data = ['o','r','d','-'] := rfl
  simp [mkOrd, natStr, String.data_append, this]

theorem orderNumOf_mkOrd (n : Nat) : orderNumOf (mkOrd n) = n := by
  unfold orderNumOf
  rw [data_mkOrd, firstRun_append_no_digit _ _ (by decide),
    firstRun_all_dig _ (natDigs_ne_nil n) (natDigs_all_dig n)]
  exact digsVal_natDigs n

theorem mkOrd_inj {a b : Nat} (h : mkOrd a = mkOrd b) : a = b := by
  have := congrArg orderNumOf h
  rwa [orderNumOf_mkOrd, orderNumOf_mkOrd] at this

theorem init_le_foldl_max : ∀ (l : List Nat) (a : Nat), a ≤ l.foldl max a := by
  intro l
  induction l with
  | nil => intro a; simp
  | cons c cs ih =>
    intro a
    simp only [List.foldl_cons]
    exact le_trans (le_max_left a c) (ih (max a c))

theorem mem_le_foldl_max {x : Nat} : ∀ {l : List Nat} (a : Nat), x ∈ l → x ≤ l.foldl max a := by
  intro l
  induction l with
  | nil => intro a h; simp at h
  | cons c cs ih =>
    intro a h
    simp only [List.foldl_cons]
    rcases List.mem_cons.mp h with rfl | hmem
    · exact le_trans (le_max_right a x) (init_le_foldl_max cs _)
    · exact ih _ hmem

theorem orderNum_le_maxOrderNum {r : OrderRow} {rows : List OrderRow}
    (h : r ∈ rows) : orderNumOf r.order_code ≤ maxOrderNum rows :=
  mem_le_foldl_max 0 (List.mem_map_of_mem _ h)

/-- the two-phase source renumbering (duplicate mask, then the reassignment
loop) equals the one-pass scan of the spec. -/
theorem assignNew_eq_specAux (maxN : Nat) :
    ∀ (rows : List OrderRow) (seen : List (String × Option ℚ)) (k : Nat),
      assignNewAux maxN rows (duplicatedMaskAux seen rows) k =
        specRenumberAux maxN seen k rows := by
  intro rows
  induction rows with
  | nil => intro seen k; rfl
  | cons r rs ih =>
    intro seen k
    by_cases h : orderKey r ∈ seen
    · have hd : decide (orderKey r ∈ seen) = true := by simpa using h
      simp only [duplicatedMaskAux, hd, specRenumberAux, if_pos h, assignNewAux]
      rw [ih]
    · have hd : decide (orderKey r ∈ seen) = false := by simpa using h
      simp only [duplicatedMaskAux, hd, specRenumberAux, if_neg h, assignNewAux]
      rw [ih]

theorem specRenumberAux_length (maxN : Nat) :
    ∀ (rows : List OrderRow) (seen : List (String × Option ℚ)) (k : Nat),
      (specRenumberAux maxN seen k rows).length = rows.length := by
  intro rows
  induction rows with
  | nil => intro seen k; rfl
  | cons r rs ih =>
    intro seen k
    unfold specRenumberAux
    split <;> simp [ih]

/-- key-level invariant of the spec scan: the output keys are nodup, and every
output key either is an original key not in `seen`, or is a freshly assigned
key `ord-(maxN + m)` with `m ≥ k`. -/
theorem specRenumberAux_keys (maxN : Nat) :
    ∀ (rows : List OrderRow) (seen : List (String × Option ℚ)) (k : Nat),
      1 ≤ k →
      (∀ r ∈ rows, ∃ n, n ≤ maxN ∧ r.order_code = mkOrd n) →
      ((specRenumberAux maxN seen k rows).map orderKey).Nodup ∧
        ∀ p ∈ (specRenumberAux maxN seen k rows).map orderKey,
          (p ∉ seen ∧ ∃ n, n ≤ maxN ∧ p.1 = mkOrd n) ∨
            (∃ m, k ≤ m ∧ p.1 = mkOrd (maxN + m)) := by
  intro rows
  induction rows with
  | nil =>
    intro seen k _ _
    exact ⟨by simp [specRenumberAux], by simp [specRenumberAux]⟩
  | cons r rs ih =>
    intro seen k hk hcanon
    obtain ⟨n, hn, hcode⟩ := hcanon r (by simp)
    have hcanon' : ∀ x ∈ rs, ∃ m, m ≤ maxN ∧ x.order_code = mkOrd m :=
      fun x hx => hcanon x (by simp [hx])
    unfold specRenumberAux
    by_cases h : orderKey r ∈ seen
    · rw [if_pos h]
      obtain ⟨ihnd, ihmem⟩ := ih (orderKey r :: seen) (k + 1) (by omega) hcanon'
      constructor
      · simp only [List.map_cons, List.nodup_cons]
        refine ⟨?_, ihnd⟩
        intro hmem
        rcases ihmem _ hmem with ⟨_, m, hm, hp⟩ | ⟨m, hm, hp⟩
        · simp only [orderKey] at hp
          have := mkOrd_inj hp.symm
          omega
        · simp only [orderKey] at hp
          have := mkOrd_inj hp.symm
          omega
      · intro p hp
        simp only [List.map_cons, List.mem_cons] at hp
        rcases hp with rfl | hp
        · right; exact ⟨k, le_refl k, rfl⟩
        · rcases ihmem p hp with ⟨hns, hex⟩ | ⟨m, hm, hmk⟩
          · left; exact ⟨fun hc => hns (by simp [hc]), hex⟩
          · right; exact ⟨m, by omega, hmk⟩
    · rw [if_neg h]
      obtain ⟨ihnd, ihmem⟩ := ih (orderKey r :: seen) k hk hcanon'
      constructor
      · simp only [List.map_cons, List.nodup_cons]
        refine ⟨?_, ihnd⟩
        intro hmem
        rcases ihmem _ hmem with ⟨hns, _⟩ | ⟨m, hm, hp⟩
        · exact hns (by simp)
        · simp only [orderKey] at hp
          rw [hcode] at hp
          have := mkOrd_inj hp
          omega
      · intro p hp
        simp only [List.map_cons, List.mem_cons] at hp
        rcases hp with rfl | hp
        · left
          refine ⟨h, n, hn, ?_⟩
          simpa [orderKey] using hcode
        · rcases ihmem p hp with ⟨hns, hex⟩ | hnew
          · left; exact ⟨fun hc => hns (by simp [hc]), hex⟩
          · right; exact hnew

/-- C1: on any table of canonical (`"ord-" + int`) order codes, the
renumbering step of `clean_orders` equals the spec's one-pass scan (first
occurrence of each `(order_code, line_number)` pair untouched, the `k`-th
subsequent collision assigned `"ord-" + (max_order_num + k)` with
`line_number` unchanged), drops no rows, and leaves no two rows sharing the
same `(order_code, line_number)` pair. -/
theorem claim_C1_renumbering (rows : List OrderRow)
    (hcanon : ∀ r ∈ rows, ∃ n, r.order_code = mkOrd n) :
    renumberOrders rows = specRenumber rows ∧
    (renumberOrders rows).length = rows.length ∧
    ((renumberOrders rows).map orderKey).Nodup := by
  have heq : renumberOrders rows = specRenumber rows :=
    assignNew_eq_specAux _ rows [] 1
  have hcanon' : ∀ r ∈ rows, ∃ n, n ≤ maxOrderNum rows ∧ r.order_code = mkOrd n := by
    intro r hr
    obtain ⟨n, hn⟩ := hcanon r hr
    refine ⟨n, ?_, hn⟩
    have := orderNum_le_maxOrderNum hr
    rwa [hn, orderNumOf_mkOrd] at this
  obtain ⟨hnd, -⟩ :=
    specRenumberAux_keys (maxOrderNum rows) rows [] 1 (le_refl 1) hcanon'
  exact ⟨heq, heq ▸ specRenumberAux_length _ rows [] 1, heq ▸ hnd⟩

/-- C1 witness: the claim's example.  Input pairs
`[("ord-5",1), ("ord-5",1), ("ord-5",1)]` (max order number 5) renumber to
`[("ord-5",1), ("ord-6",1), ("ord-7",1)]`, with no row dropped and no
duplicate keys. -/
theorem claim_C1_renumbering_witness :
    (∀ r ∈ [exOrd5, exOrd5, exOrd5], ∃ n, r.order_code = mkOrd n) ∧
    (renumberOrders [exOrd5, exOrd5, exOrd5]).length = 3 ∧
    ((renumberOrders [exOrd5, exOrd5, exOrd5]).map orderKey).Nodup ∧
    (renumberOrders [exOrd5, exOrd5, exOrd5]).map orderKey =
      [("ord-5", some 1), ("ord-6", some 1), ("ord-7", some 1)] := by
  have hcanon : ∀ r ∈ [exOrd5, exOrd5, exOrd5], ∃ n, r.order_code = mkOrd n := by
    intro r hr
    simp only [List.mem_cons, List.not_mem_nil, or_false] at hr
    rcases hr with rfl | rfl | rfl <;> exact ⟨5, by decide⟩
  have h := claim_C1_renumbering [exOrd5, exOrd5, exOrd5] hcanon
  exact ⟨hcanon, h.2.1, h.2.2, by decide⟩

theorem dropDupAux_spec {α β : Type} [DecidableEq β] (key : α → β) :
    ∀ (l : List α) (seen : List β),
      ((dropDupAux key seen l).map key).Nodup ∧
      (∀ r ∈ dropDupAux key seen l, key r ∉ seen) ∧
      (dropDupAux key seen l).Sublist l ∧
      (∀ r ∈ l, key r ∈ seen ∨ key r ∈ (dropDupAux key seen l).map key) ∧
      (∀ r ∈ dropDupAux key seen l,
        l.find? (fun x => decide (key x = key r)) = some r) := by
  intro l
  induction l with
  | nil =>
    intro seen
    refine ⟨by simp [dropDupAux], by simp [dropDupAux], by simp [dropDupAux],
      by simp, by simp [dropDupAux]⟩
  | cons a as ih =>
    intro seen
    by_cases h : key a ∈ seen
    · have hout : dropDupAux key seen (a :: as) = dropDupAux key seen as := by
        simp [dropDupAux, h]
      obtain ⟨ih1, ih2, ih3, ih4, ih5⟩ := ih seen
      rw [hout]
      refine ⟨ih1, ih2, ih3.cons a, ?_, ?_⟩
      · intro r hr
        rcases List.mem_cons.mp hr with rfl | hr
        · exact Or.inl h
        · exact ih4 r hr
      · intro r hr
        have hne : key a ≠ key r := fun hc => ih2 r hr (hc ▸ h)
        rw [List.find?_cons_of_neg _ (by simpa using hne)]
        exact ih5 r hr
    · have hout : dropDupAux key seen (a :: as) =
          a :: dropDupAux key (key a :: seen) as := by
        simp [dropDupAux, h]
      obtain ⟨ih1, ih2, ih3, ih4, ih5⟩ := ih (key a :: seen)
      rw [hout]
      refine ⟨?_, ?_, ih3.cons₂ a, ?_, ?_⟩
      · simp only [List.map_cons, List.nodup_cons]
        refine ⟨?_, ih1⟩
        intro hc
        obtain ⟨r, hr, hkey⟩ := List.mem_map.mp hc
        exact ih2 r hr (by simp [hkey])
      · intro r hr
        rcases List.mem_cons.mp hr with rfl | hr
        · exact h
        · intro hc
          exact ih2 r hr (by simp [hc])
      · intro r hr
        rcases List.mem_cons.mp hr with rfl | hr
        · right; simp
        · rcases ih4 r hr with hseen | hmem
          · rcases List.mem_cons.mp hseen with heq | hseen
            · right; simp [heq]
            · exact Or.inl hseen
          · right; simp only [List.map_cons, List.mem_cons]; exact Or.inr hmem
      · intro r hr
        rcases List.mem_cons.mp hr with rfl | hr
        · rw [List.find?_cons_of_pos _ (by simp)]
        · have hne : key a ≠ key r := by
            intro hc
            exact ih2 r hr (by simp [hc])
          rw [List.find?_cons_of_neg _ (by simpa using hne)]
          exact ih5 r hr

theorem dropDupBy_firstSeenWins {α β : Type} [DecidableEq β] (key : α → β)
    (l : List α) : firstSeenWins key l (dropDupBy key l) := by
  obtain ⟨h1, _, h3, h4, h5⟩ := dropDupAux_spec key l []
  refine ⟨h1, h3, ?_, h5⟩
  intro r hr
  rcases h4 r hr with hseen | hmem
  · simp at hseen
  · exact hmem

/-- C2 is false as stated: `clean_regions` performs no deduplication, so a
Region table whose rows share a `region_code` still contains that duplicate
primary key after cleaning. -/
theorem claim_C2_counterexample :
    ¬ (((cleanRegions [exRegionA, exRegionB]).map
        (fun r => r.region_code)).Nodup) := by
  decide

/-- C2 (amended): for Product, Store and Customer (but not Region, which is
not deduplicated), the cleaned table is unique on its primary business key,
and when the normalized input contains duplicates of a key the first
occurrence in table order is kept and the rest are dropped. -/
theorem claim_C2_dimension_dedup (ps : List ProductRow) (ss : List StoreRow)
    (cs : List CustomerRow) :
    firstSeenWins (fun r => r.product_code) (cleanProductsPre ps) (cleanProducts ps) ∧
    firstSeenWins (fun r => r.store_code) (cleanStoresPre ss) (cleanStores ss) ∧
    firstSeenWins (fun r => r.customer_code) (cleanCustomersPre cs) (cleanCustomers cs) :=
  ⟨dropDupBy_firstSeenWins _ _, dropDupBy_firstSeenWins _ _,
    dropDupBy_firstSeenWins _ _⟩

/-- C2 witness: the amended statement applied to a concrete duplicate-key
Product table. -/
theorem claim_C2_dimension_dedup_witness :
    firstSeenWins (fun r => r.product_code)
      (cleanProductsPre
        [{ product_code := "PRD-07", product_name := "a", category := "c",
           base_price := some 1, active_flag := "Y" },
         { product_code := "prd-7", product_name := "b", category := "c",
           base_price := some 2, active_flag := "Y" }])
      (cleanProducts
        [{ product_code := "PRD-07", product_name := "a", category := "c",
           base_price := some 1, active_flag := "Y" },
         { product_code := "prd-7", product_name := "b", category := "c",
           base_price := some 2, active_flag := "Y" }]) :=
  (claim_C2_dimension_dedup
    [{ product_code := "PRD-07", product_name := "a", category := "c",
       base_price := some 1, active_flag := "Y" },
     { product_code := "prd-7", product_name := "b", category := "c",
       base_price := some 2, active_flag := "Y" }] [] []).1

/-- C3: the enforcer retains an order row iff the spec's predicate holds (the
sentinel `"store-0"` / `"prd-0"` exemption, membership in the cleaned
dimension key sets); it is a pure filter of the orders (a sub-sequence — the
dimension tables are not modified), and the predicate never inspects
`customer_code`: rows with an unknown customer are retained. -/
theorem claim_C3_referential_integrity (orders : List OrderRow)
    (stores : List StoreRow) (products : List ProductRow) :
    enforceRI orders stores products =
      orders.filter (fun r => decide (specRetainRI r stores products)) ∧
    (enforceRI orders stores products).Sublist orders ∧
    (∀ (r : OrderRow) (c : String),
      riKeep { r with customer_code := c } stores products = riKeep r stores products) := by
  refine ⟨?_, List.filter_sublist _, fun r c => rfl⟩
  unfold enforceRI
  apply List.filter_congr
  intro r _
  unfold riKeep specRetainRI
  rw [Bool.eq_iff_iff]
  simp [Bool.and_eq_true, Bool.or_eq_true, decide_eq_true_eq,
    List.contains_eq_any_beq, List.any_eq_true, beq_iff_eq, List.mem_map]
  aesop

/-- C4: `standardize_id` always produces `pre ++ "-" ++ N` where `N` is the
integer value of the first run of decimal digits of the cell text (`0` when
there is no digit), rendered without leading zeros by the
`astype(int).astype(str)` round-trip; on the claim's examples, `"CUST007"`,
`"cust-007"` and `"007"` all canonicalize to `"cust-7"`, and the digitless
`"abc"` canonicalizes to the sentinel `"cust-0"`. -/
theorem claim_C4_canonicalization (s pre : String) :
    (∃ n : Nat,
      n = digsVal ((firstRun s.data).getD ['0']) ∧
      standardize_id s pre = pre ++ "-" ++ natStr n ∧
      (n = 0 ∨ (natDigs n).head? ≠ some '0') ∧
      ((∀ c ∈ s.data, isDigC c = false) → n = 0)) ∧
    standardize_id "CUST007" "cust" = "cust-7" ∧
    standardize_id "cust-007" "cust" = "cust-7" ∧
    standardize_id "007" "cust" = "cust-7" ∧
    standardize_id "abc" "cust" = "cust-0" := by
  refine ⟨⟨digsVal ((firstRun s.data).getD ['0']), rfl, rfl, ?_, ?_⟩,
    by decide, by decide, by decide, by decide⟩
  · rcases Nat.eq_zero_or_pos (digsVal ((firstRun s.data).getD ['0'])) with h | h
    · exact Or.inl h
    · exact Or.inr (natDigs_head_ne_zero h)
  · intro h
    rw [firstRun_none_of_no_digit _ h]
    decide

/-- C4 witness: the general form instantiated at the digitless input
`"n/a"`. -/
theorem claim_C4_canonicalization_witness :
    ∃ n : Nat,
      n = digsVal ((firstRun ("n/a" : String).data).getD ['0']) ∧
      standardize_id "n/a" "store" = "store" ++ "-" ++ natStr n ∧
      (n = 0 ∨ (natDigs n).head? ≠ some '0') ∧
      ((∀ c ∈ ("n/a" : String).data, isDigC c = false) → n = 0) :=
  (claim_C4_canonicalization "n/a" "store").1

/-- C8 is false as stated: an order row whose `quantity` is missing after
coercion (its required `unit_cost` being present) IS dropped, because the
floor comparison `df[df["quantity"] >= 0]` evaluates `NaN >= 0` to `False`. -/
theorem claim_C8_counterexample :
    exMissingQty.unit_cost.isSome = true ∧
    exMissingQty.quantity = none ∧
    cleanOrders [exMissingQty] = [] := by
  decide

theorem productFilters_eq_filter (l : List ProductRow) :
    (l.filter (fun r => r.base_price.isSome)).filter (fun r => geZero r.base_price) =
      l.filter keepProduct := by
  rw [List.filter_filter]
  apply List.filter_congr
  intro r _
  unfold keepProduct
  cases h : r.base_price.isSome <;> cases h2 : geZero r.base_price <;> simp_all

theorem storeFilters_eq_filter (l : List StoreRow) :
    (l.filter (fun r => r.square_feet.isSome)).filter (fun r => geOne r.square_feet) =
      l.filter keepStore := by
  rw [List.filter_filter]
  apply List.filter_congr
  intro r _
  unfold keepStore
  cases h : r.square_feet.isSome <;> cases h2 : geOne r.square_feet <;> simp_all

/-- C8 (amended): the required-non-null drops are indeed `unit_cost` (orders),
`base_price` (products) and `square_feet` (stores); however the floor
comparisons `>= 0` / `>= 1` retain a row only when the field is PRESENT and
at or above the floor, so an order row whose `quantity` or `unit_price` is
missing after coercion IS dropped by the floor comparison (a missing value
fails the pandas `>=` test). -/
theorem claim_C8_missing_numeric_drops (r : OrderRow) (p : ProductRow)
    (s : StoreRow) (rows : List OrderRow) (ps : List ProductRow)
    (ss : List StoreRow) :
    (orderFilterStage rows = rows.filter keepOrder) ∧
    (cleanProductsPre ps = (ps.map normalizeProductRow).filter keepProduct) ∧
    (cleanStoresPre ss = (ss.map normalizeStoreRow).filter keepStore) ∧
    (keepOrder r = true ↔
      (∃ q, r.unit_cost = some q ∧ 0 ≤ q) ∧
      (∃ q, r.quantity = some q ∧ 0 ≤ q) ∧
      (∃ q, r.unit_price = some q ∧ 0 ≤ q)) ∧
    (keepProduct p = true ↔ ∃ q, p.base_price = some q ∧ 0 ≤ q) ∧
    (keepStore s = true ↔ ∃ q, s.square_feet = some q ∧ 1 ≤ q) ∧
    (r.quantity = none ∨ r.unit_price = none → keepOrder r = false) := by
  refine ⟨orderFilterStage_eq_filter rows, productFilters_eq_filter _,
    storeFilters_eq_filter _, ?_, ?_, ?_, ?_⟩
  · unfold keepOrder geZero
    cases hc : r.unit_cost <;> cases hq : r.quantity <;> cases hp : r.unit_price <;>
      (simp_all; try tauto)
  · unfold keepProduct geZero
    cases hb : p.base_price <;> simp_all
  · unfold keepStore geOne
    cases hf : s.square_feet <;> simp_all
  · intro h
    unfold keepOrder geZero
    rcases h with h | h <;> rw [h] <;> simp

/-- C8 witness: the amended statement applied at concrete rows, and the
claim's central consequence evaluated: a row with missing `quantity` fails
the order filter. -/
theorem claim_C8_missing_numeric_drops_witness :
    (exMissingQty.quantity = none ∨ exMissingQty.unit_price = none) ∧
    keepOrder exMissingQty = false := by
  refine ⟨Or.inl rfl, ?_⟩
  exact (claim_C8_missing_numeric_drops exMissingQty
    { product_code := "p", product_name := "p", category := "c",
      base_price := some 1, active_flag := "Y" }
    { store_code := "s", store_name := "s", city := "c", state := "NY",
      region_name := "North", open_date := "d", close_date := "d",
      square_feet := some 1 } [] [] []).2.2.2.2.2.2 (Or.inl rfl)

/-- C7 is false as stated: `clean_orders` coerces `line_number` but applies
no floor filter to it, so a row with `line_number = 0 < 1` survives cleaning
unchanged. -/
theorem claim_C7_counterexample :
    (cleanOrders [exLineZero]).map (fun r => r.line_number) = [some 0] ∧
    ((0 : ℚ) < 1) := by
  exact ⟨by decide, by norm_num⟩

theorem lowerChar_of_none {c : Char}
    (h : caseTable.find? (fun p => p.1 == c) = none) : lowerChar c = c := by
  unfold lowerChar
  rw [h]

theorem lowerChar_of_some {c : Char} {p : Char × Char}
    (h : caseTable.find? (fun q => q.1 == c) = some p) : lowerChar c = p.2 := by
  unfold lowerChar
  rw [h]

theorem upperChar_of_none {c : Char}
    (h : caseTable.find? (fun p => p.2 == c) = none) : upperChar c = c := by
  unfold upperChar
  rw [h]

theorem upperChar_of_some {c : Char} {p : Char × Char}
    (h : caseTable.find? (fun q => q.2 == c) = some p) : upperChar c = p.1 := by
  unfold upperChar
  rw [h]

theorem caseTable_up_of_low :
    ∀ p ∈ caseTable, caseTable.find? (fun q => q.1 == p.2) = none := by
  decide

theorem caseTable_low_of_low :
    ∀ p ∈ caseTable, caseTable.find? (fun q => q.2 == p.2) = some p := by
  decide

theorem caseTable_low_of_up :
    ∀ p ∈ caseTable, caseTable.find? (fun q => q.2 == p.1) = none := by
  decide

theorem caseTable_up_of_up :
    ∀ p ∈ caseTable, caseTable.find? (fun q => q.1 == p.1) = some p := by
  decide

theorem caseTable_not_ws :
    ∀ p ∈ caseTable, wsChar p.1 = false ∧ wsChar p.2 = false := by
  decide

theorem lowerChar_lowerChar (c : Char) : lowerChar (lowerChar c) = lowerChar c := by
  cases h : caseTable.find? (fun p => p.1 == c) with
  | none => simp only [lowerChar_of_none h]
  | some p =>
    rw [lowerChar_of_some h,
      lowerChar_of_none (caseTable_up_of_low p (List.mem_of_find?_eq_some h))]

theorem upperChar_lowerChar (c : Char) : upperChar (lowerChar c) = upperChar c := by
  cases h : caseTable.find? (fun p => p.1 == c) with
  | none => rw [lowerChar_of_none h]
  | some p =>
    have hp := List.mem_of_find?_eq_some h
    have hc : p.1 = c := by simpa using List.find?_some h
    rw [lowerChar_of_some h, upperChar_of_some (caseTable_low_of_low p hp), ← hc,
      upperChar_of_none (caseTable_low_of_up p hp)]

theorem lowerChar_upperChar (c : Char) : lowerChar (upperChar c) = lowerChar c := by
  cases h : caseTable.find? (fun p => p.2 == c) with
  | none => rw [upperChar_of_none h]
  | some p =>
    have hp := List.mem_of_find?_eq_some h
    have hc : p.2 = c := by simpa using List.find?_some h
    rw [upperChar_of_some h, lowerChar_of_some (caseTable_up_of_up p hp), ← hc,
      lowerChar_of_none (caseTable_up_of_low p hp)]

theorem isAlphaC_lowerChar (c : Char) : isAlphaC (lowerChar c) = isAlphaC c := by
  cases h : caseTable.find? (fun p => p.1 == c) with
  | none => rw [lowerChar_of_none h]
  | some p =>
    have hp := List.mem_of_find?_eq_some h
    rw [lowerChar_of_some h]
    unfold isAlphaC isUpC isLowC
    rw [caseTable_up_of_low p hp, caseTable_low_of_low p hp, h]
    simp

theorem lowerChar_of_not_alpha {c : Char} (h : isAlphaC c = false) :
    lowerChar c = c := by
  unfold isAlphaC isUpC at h
  cases hf : caseTable.find? (fun p => p.1 == c) with
  | none => exact lowerChar_of_none hf
  | some p => rw [hf] at h; simp at h

theorem wsChar_lowerChar (c : Char) : wsChar (lowerChar c) = wsChar c := by
  cases h : caseTable.find? (fun p => p.1 == c) with
  | none => rw [lowerChar_of_none h]
  | some p =>
    have hp := List.mem_of_find?_eq_some h
    have hc : p.1 = c := by simpa using List.find?_some h
    rw [lowerChar_of_some h, (caseTable_not_ws p hp).2, ← hc,
      (caseTable_not_ws p hp).1]

theorem lowerList_titleAux : ∀ (l : List Char) (b : Bool),
    lowerList (titleAux b l) = lowerList l := by
  intro l
  induction l with
  | nil => intro b; rfl
  | cons c cs ih =>
    intro b
    unfold titleAux lowerList
    simp only [List.map_cons]
    congr 1
    · by_cases ha : isAlphaC c = true
      · cases b <;> simp [ha, lowerChar_lowerChar, lowerChar_upperChar]
      · simp [ha]
    · exact ih _

theorem titleAux_lowerList : ∀ (l : List Char) (b : Bool),
    titleAux b (lowerList l) = titleAux b l := by
  intro l
  induction l with
  | nil => intro b; rfl
  | cons c cs ih =>
    intro b
    unfold lowerList
    simp only [List.map_cons]
    unfold titleAux
    rw [isAlphaC_lowerChar]
    congr 1
    · by_cases ha : isAlphaC c = true
      · cases b <;> simp [ha, lowerChar_lowerChar, upperChar_lowerChar]
      · simp only [Bool.not_eq_true] at ha
        simp [ha, lowerChar_of_not_alpha ha]
    · exact ih _

theorem dropWhile_head_not (p : Char → Bool) :
    ∀ (l : List Char) (x : Char), (l.dropWhile p).head? = some x → p x = false := by
  intro l
  induction l with
  | nil => intro x h; simp [List.dropWhile] at h
  | cons a as ih =>
    intro x h
    by_cases hp : p a = true
    · rw [List.dropWhile_cons_of_pos hp] at h
      exact ih x h
    · rw [List.dropWhile_cons_of_neg hp] at h
      simp only [List.head?_cons, Option.some.injEq] at h
      subst h
      simpa using hp

theorem ws_comp_lower : (wsChar ∘ lowerChar) = wsChar := by
  funext c
  simp [Function.comp, wsChar_lowerChar]

theorem dropWhile_ws_map_lower (l : List Char) :
    (l.map lowerChar).dropWhile wsChar = (l.dropWhile wsChar).map lowerChar := by
  rw [List.dropWhile_map, ws_comp_lower]

theorem rdropWhile_ws_map_lower (l : List Char) :
    List.rdropWhile wsChar (l.map lowerChar) =
      (List.rdropWhile wsChar l).map lowerChar := by
  unfold List.rdropWhile
  rw [← List.map_reverse, List.dropWhile_map, ws_comp_lower, List.map_reverse]

theorem trimList_lowerList (l : List Char) :
    trimList (lowerList l) = lowerList (trimList l) := by
  unfold trimList lowerList
  rw [dropWhile_ws_map_lower, rdropWhile_ws_map_lower]

theorem trimList_idem (l : List Char) : trimList (trimList l) = trimList l := by
  unfold trimList
  have h1 : List.dropWhile wsChar
      (List.rdropWhile wsChar (l.dropWhile wsChar)) =
      List.rdropWhile wsChar (l.dropWhile wsChar) := by
    cases ht : List.rdropWhile wsChar (l.dropWhile wsChar) with
    | nil => simp
    | cons x xs =>
      have hpre : List.rdropWhile wsChar (l.dropWhile wsChar) <+:
          l.dropWhile wsChar := List.rdropWhile_prefix _ _
      rw [ht] at hpre
      obtain ⟨rest, hrest⟩ := hpre
      have hhead : (l.dropWhile wsChar).head? = some x := by
        rw [← hrest]
        rfl
      have hx : wsChar x = false := dropWhile_head_not wsChar l x hhead
      exact List.dropWhile_cons_of_neg (by simp [hx])
  rw [h1, List.rdropWhile_idempotent]

/-- the once-normalized region name is a fixed point of the normalizer
PROVIDED the substring `"region"` does not reappear in its lowercased form
(formally: removing `"region"` from that lowercased form changes nothing). -/
theorem normalizeRegionName_fixed (s : String)
    (h : removeAll "region".data (lowerList (normalizeRegionName s).data) =
      lowerList (normalizeRegionName s).data) :
    normalizeRegionName (normalizeRegionName s) = normalizeRegionName s := by
  unfold normalizeRegionName at h ⊢
  refine congrArg String.mk ?_
  have h' : removeAll "region".data
      (lowerList (titleList (trimList (removeAll "region".data (lowerList s.data))))) =
      lowerList (titleList (trimList (removeAll "region".data (lowerList s.data)))) := h
  rw [h']
  show titleAux false (trimList (lowerList (titleAux false
      (trimList (removeAll "region".data (lowerList s.data)))))) = _
  rw [lowerList_titleAux, trimList_lowerList, trimList_idem, titleAux_lowerList]
  rfl

/-- C6 is false as stated: `"reregiongion"` normalizes to `"Region"` (removing
the inner `"region"` splices a new occurrence together), and a second
normalization pass maps `"Region"` to `""`, so the normalizer is not
idempotent on its own outputs. -/
theorem claim_C6_counterexample :
    cleanRegions (cleanRegions
        [{ region_code := "r1", region_name := "reregiongion", active_flag := "Y" }]) ≠
      cleanRegions
        [{ region_code := "r1", region_name := "reregiongion", active_flag := "Y" }] := by
  decide

/-- C6 (amended): the region-name normalization (lower-case, remove
`"region"`, trim, title-case) maps each of its own outputs to itself —
and hence a second `clean_regions` pass is the identity — provided the
lowercased normalized value no longer contains the substring `"region"`
(removal of a later-spliced occurrence, as in `"reregiongion"`, is the sole
source of non-idempotence). -/
theorem claim_C6_normalizer_idempotence (rows : List RegionRow)
    (h : ∀ r ∈ rows,
      removeAll "region".data (lowerList (normalizeRegionName r.region_name).data) =
        lowerList (normalizeRegionName r.region_name).data) :
    cleanRegions (cleanRegions rows) = cleanRegions rows := by
  unfold cleanRegions
  rw [List.map_map]
  apply List.map_congr_left
  intro r hr
  have hfix := normalizeRegionName_fixed r.region_name (h r hr)
  show RegionRow.mk r.region_code
      (normalizeRegionName (normalizeRegionName r.region_name)) r.active_flag =
    RegionRow.mk r.region_code (normalizeRegionName r.region_name) r.active_flag
  rw [hfix]

/-- C6 witness: a second cleaning pass fixes the concrete table whose region
name `"North Region "` normalizes to `"North"`. -/
theorem claim_C6_normalizer_idempotence_witness :
    (∀ r ∈ [exNorthRegion],
      removeAll "region".data (lowerList (normalizeRegionName r.region_name).data) =
        lowerList (normalizeRegionName r.region_name).data) ∧
    cleanRegions (cleanRegions [exNorthRegion]) = cleanRegions [exNorthRegion] :=
  ⟨by decide, claim_C6_normalizer_idempotence _ (by decide)⟩

/-- C5: the verdict of `run_validation` is success iff every one of the six
per-table checks succeeds on every one of the five tables and the cross-table
check succeeds (no short-circuiting: the verdict is the conjunction of all
individually evaluated checks, and the failure signal is only produced from
that full conjunction); moreover a table with both a missing required column
and a duplicate-key violation has BOTH failures recorded (the structural
check and the uniqueness check both report failure). -/
theorem claim_C5_validator_aggregation :
    (∀ (regions products stores customers orders : Table) (b : Bool),
      validateReferentialIntegrity regions products stores customers orders = some b →
      (runValidationVerdict regions products stores customers orders =
          some (Except.ok ()) ↔
        (tableOk regionsSchema regions = true ∧
         tableOk productsSchema products = true ∧
         tableOk storesSchema stores = true ∧
         tableOk customersSchema customers = true ∧
         tableOk ordersSchema orders = true ∧ b = true))) ∧
    (∀ (sch : Schema) (t : Table),
      tableOk sch t = true ↔
        (validateSchema sch t = true ∧ validateNulls sch t = true ∧
         validateDtypes sch t = true ∧ validateAllowedValues sch t = true ∧
         validateMinValues sch t = true ∧ validateUniqueness sch t = true)) ∧
    (∀ (sch : Schema) (t : Table) (c : String) (key : List String),
      c ∈ sch.required_columns → hasCol t c = false →
      key ∈ sch.unique_keys → key.all (fun k => hasCol t k) = true →
      hasDupRows (t.rows.map (projectRow t key)) = true →
      validateSchema sch t = false ∧ validateUniqueness sch t = false) := by
  refine ⟨?_, ?_, ?_⟩
  · intro r p s c o b h
    have hrv : runValidation r p s c o =
        some (tableOk regionsSchema r && tableOk productsSchema p &&
          tableOk storesSchema s && tableOk customersSchema c &&
          tableOk ordersSchema o && b) := by
      unfold runValidation
      rw [h]
    unfold runValidationVerdict
    rw [hrv]
    simp only [Option.map_some']
    by_cases hall : (tableOk regionsSchema r && tableOk productsSchema p &&
        tableOk storesSchema s && tableOk customersSchema c &&
        tableOk ordersSchema o && b) = true
    · rw [hall]
      simp only [if_true]
      simp only [Bool.and_eq_true] at hall
      constructor
      · intro _
        tauto
      · intro _
        trivial
    · have hf : (tableOk regionsSchema r && tableOk productsSchema p &&
          tableOk storesSchema s && tableOk customersSchema c &&
          tableOk ordersSchema o && b) = false := by
        simpa using hall
      rw [hf]
      simp only [Bool.false_eq_true, if_false]
      constructor
      · intro heq
        simp at heq
      · intro hconj
        exfalso
        apply hall
        simp only [Bool.and_eq_true]
        tauto
  · intro sch t
    unfold tableOk
    simp [Bool.and_eq_true, and_assoc]
  · intro sch t c key hc hcol hkey hkeyall hdup
    constructor
    · rw [Bool.eq_false_iff]
      intro hall
      unfold validateSchema at hall
      rw [List.all_eq_true] at hall
      have := hall c hc
      rw [hcol] at this
      simp at this
    · rw [Bool.eq_false_iff]
      intro hall
      unfold validateUniqueness at hall
      rw [List.all_eq_true] at hall
      have hb := hall key hkey
      have hany : key.any (fun x => !(hasCol t x)) = false := by
        rw [List.all_eq_true] at hkeyall
        rw [List.any_eq_false]
        intro x hx
        rw [hkeyall x hx]
        simp
      rw [hany] at hb
      simp only [Bool.false_eq_true, if_false, hdup] at hb
      simp at hb

/-- C5 witness: the verdict equivalence at concrete tables, and a concrete
table with both a missing required column and a duplicate key for which both
the structural and the uniqueness check report failure. -/
theorem claim_C5_validator_aggregation_witness :
    validateReferentialIntegrity wRegions wProducts wStores wCustomers wOrders =
      some true ∧
    (runValidationVerdict wRegions wProducts wStores wCustomers wOrders =
        some (Except.ok ()) ↔
      (tableOk regionsSchema wRegions = true ∧
       tableOk productsSchema wProducts = true ∧
       tableOk storesSchema wStores = true ∧
       tableOk customersSchema wCustomers = true ∧
       tableOk ordersSchema wOrders = true ∧ true = true)) ∧
    (validateSchema regionsSchema wBadRegions = false ∧
     validateUniqueness regionsSchema wBadRegions = false) :=
  ⟨by decide,
   claim_C5_validator_aggregation.1 wRegions wProducts wStores wCustomers wOrders
     true (by decide),
   claim_C5_validator_aggregation.2.2 regionsSchema wBadRegions "region_code"
     ["region_name"] (by decide) (by decide) (by decide) (by decide) (by decide)⟩

theorem getColVals_none {t : Table} {c : String} (h : hasCol t c = false) :
    getColVals t c = none := by
  unfold hasCol at h
  unfold getColVals
  cases hidx : colIdx t c with
  | none => rfl
  | some i => rw [hidx] at h; simp at h

theorem getColDtype_none {t : Table} {c : String} (h : hasCol t c = false) :
    getColDtype t c = none := by
  unfold hasCol at h
  unfold getColDtype
  cases hidx : colIdx t c with
  | none => rfl
  | some i => rw [hidx] at h; simp at h

theorem all_filter_skip {α : Type} (l : List α) (p q : α → Bool)
    (h : ∀ x ∈ l, q x = false → p x = true) : l.all p = (l.filter q).all p := by
  induction l with
  | nil => rfl
  | cons a as ih =>
    by_cases hq : q a = true
    · rw [List.filter_cons_of_pos hq]
      simp only [List.all_cons]
      rw [ih (fun x hx hqx => h x (by simp [hx]) hqx)]
    · have hq' : q a = false := by simpa using hq
      rw [List.filter_cons_of_neg (by simp [hq'])]
      simp only [List.all_cons, h a (by simp) hq', Bool.true_and]
      exact ih (fun x hx hqx => h x (by simp [hx]) hqx)

/-- C9 (as stated for the per-column checks; see the separate counterexample
for the unguarded cross-table check): an absent column is skipped by every
per-column check — the null, dtype, allowed-value, minimum-value and
uniqueness checks compute the same verdict as if the schema did not mention
the column at all (tuples containing it are skipped), and only the
structural check reports the column when it is required. -/
theorem claim_C9_absent_column_skip (sch : Schema) (t : Table) (c : String)
    (h : hasCol t c = false) :
    (c ∈ sch.required_columns → validateSchema sch t = false) ∧
    validateNulls sch t =
      validateNulls
        { sch with required_columns :=
            sch.required_columns.filter (fun x => !(x == c)) } t ∧
    validateDtypes sch t =
      validateDtypes
        { sch with
          strings := sch.strings.filter (fun x => !(x == c))
          ints := sch.ints.filter (fun x => !(x == c))
          floats := sch.floats.filter (fun x => !(x == c))
          datetimes := sch.datetimes.filter (fun x => !(x == c)) } t ∧
    validateAllowedValues sch t =
      validateAllowedValues
        { sch with allowed_values :=
            sch.allowed_values.filter (fun cv => !(cv.1 == c)) } t ∧
    validateMinValues sch t =
      validateMinValues
        { sch with min_values :=
            sch.min_values.filter (fun cm => !(cm.1 == c)) } t ∧
    validateUniqueness sch t =
      validateUniqueness
        { sch with unique_keys :=
            sch.unique_keys.filter (fun key => !(key.contains c)) } t := by
  have hnone := getColVals_none h
  have hdnone := getColDtype_none h
  refine ⟨?_, ?_, ?_, ?_, ?_, ?_⟩
  · intro hc
    rw [Bool.eq_false_iff]
    intro hall
    unfold validateSchema at hall
    rw [List.all_eq_true] at hall
    have := hall c hc
    rw [h] at this
    simp at this
  · unfold validateNulls
    apply all_filter_skip
    intro x _ hqx
    have hxc : x = c := by simpa using hqx
    rw [hxc, hnone]
  · unfold validateDtypes
    rw [all_filter_skip sch.strings _ (fun x => !(x == c)) ?_,
      all_filter_skip sch.ints _ (fun x => !(x == c)) ?_,
      all_filter_skip sch.floats _ (fun x => !(x == c)) ?_,
      all_filter_skip sch.datetimes _ (fun x => !(x == c)) ?_]
    all_goals
      intro x _ hqx
    all_goals
      have hxc : x = c := by simpa using hqx
    all_goals
      rw [hxc, hdnone]
  · unfold validateAllowedValues
    apply all_filter_skip
    intro cv _ hqcv
    have hxc : cv.1 = c := by simpa using hqcv
    rw [hxc, hnone]
  · unfold validateMinValues
    apply all_filter_skip
    intro cm _ hqcm
    have hxc : cm.1 = c := by simpa using hqcm
    rw [hxc, hnone]
  · unfold validateUniqueness
    apply all_filter_skip
    intro key _ hqkey
    have hmem : c ∈ key := by
      have : key.contains c = true := by simpa using hqkey
      rw [List.contains_eq_any_beq, List.any_eq_true] at this
      obtain ⟨x, hx, hbeq⟩ := this
      have : c = x := by simpa using hbeq
      rwa [this]
    have hany : key.any (fun x => !(hasCol t x)) = true := by
      rw [List.any_eq_true]
      exact ⟨c, hmem, by simp [h]⟩
    rw [hany]
    simp

/-- C9 witness: the skip behaviour instantiated on a concrete orders table
that is missing `order_code`. -/
theorem claim_C9_absent_column_skip_witness :
    hasCol wOrders "order_code" = false ∧
    (("order_code" ∈ ordersSchema.required_columns →
        validateSchema ordersSchema wOrders = false) ∧
      validateNulls ordersSchema wOrders =
        validateNulls
          { ordersSchema with required_columns :=
              ordersSchema.required_columns.filter (fun x => !(x == "order_code")) }
          wOrders ∧
      validateDtypes ordersSchema wOrders =
        validateDtypes
          { ordersSchema with
            strings := ordersSchema.strings.filter (fun x => !(x == "order_code"))
            ints := ordersSchema.ints.filter (fun x => !(x == "order_code"))
            floats := ordersSchema.floats.filter (fun x => !(x == "order_code"))
            datetimes :=
              ordersSchema.datetimes.filter (fun x => !(x == "order_code")) }
          wOrders ∧
      validateAllowedValues ordersSchema wOrders =
        validateAllowedValues
          { ordersSchema with allowed_values :=
              ordersSchema.allowed_values.filter (fun cv => !(cv.1 == "order_code")) }
          wOrders ∧
      validateMinValues ordersSchema wOrders =
        validateMinValues
          { ordersSchema with min_values :=
              ordersSchema.min_values.filter (fun cm => !(cm.1 == "order_code")) }
          wOrders ∧
      validateUniqueness ordersSchema wOrders =
        validateUniqueness
          { ordersSchema with unique_keys :=
              ordersSchema.unique_keys.filter (fun key => !(key.contains "order_code")) }
          wOrders) :=
  ⟨by decide, claim_C9_absent_column_skip ordersSchema wOrders "order_code" (by decide)⟩

/-- C9's final clause is false as stated: although every per-column check
skips absent columns, `validate_referential_integrity` indexes
`orders["store_code"]` without a presence guard, so the validation run
crashes (pandas `KeyError`, modelled as `none`) on an orders table missing an
FK column. -/
theorem claim_C9_counterexample :
    hasCol wBadOrders "store_code" = false ∧
    runValidation wRegions wProducts wStores wCustomers wBadOrders = none := by
  decide

/-- C7 (amended): during cleaning, `line_number` is numerically coerced but
no floor filter is applied to it — the retention predicate of the order
filters is invariant under any change of `line_number` (whereas quantity /
unit_price / unit_cost floors do filter) — and the `line_number ≥ 1` floor
is enforced only later, by the validator's minimum-value check, which fails
on any orders table holding a `line_number` below 1. -/
theorem claim_C7_line_number_no_floor (r : OrderRow) (v : Option ℚ)
    (rows : List OrderRow) (t : Table) (vs : List Value) (q : ℚ) :
    (keepOrder { r with line_number := v } = keepOrder r) ∧
    (orderFilterStage rows = rows.filter keepOrder) ∧
    (getColVals t "line_number" = some vs → Value.num q ∈ vs → q < 1 →
      validateMinValues ordersSchema t = false) := by
  refine ⟨rfl, orderFilterStage_eq_filter rows, ?_⟩
  intro hcol hmem hq
  rw [Bool.eq_false_iff]
  intro hall
  unfold validateMinValues at hall
  rw [List.all_eq_true] at hall
  have hb := hall ("line_number", 1) (by simp [ordersSchema])
  rw [hcol] at hb
  simp only [List.all_eq_true] at hb
  have := hb (Value.num q) hmem
  simp only [decide_eq_true_eq] at this
  exact absurd this (by push_neg; exact hq)

/-- C7 witness: the amended statement at concrete inputs — a `line_number`
of `0` passes the cleaning filters untouched but fails the validator's
minimum-value check. -/
theorem claim_C7_line_number_no_floor_witness :
    getColVals wLineZeroTable "line_number" = some [Value.num 0] ∧
    Value.num 0 ∈ [Value.num 0] ∧ (0 : ℚ) < 1 ∧
    (keepOrder { exLineZero with line_number := some 5 } = keepOrder exLineZero) ∧
    validateMinValues ordersSchema wLineZeroTable = false := by
  have h := claim_C7_line_number_no_floor exLineZero (some 5) [] wLineZeroTable
    [Value.num 0] 0
  exact ⟨by decide, by decide, by norm_num, h.1,
    h.2.2 (by decide) (by decide) (by norm_num)⟩

theorem autoParse_cell (parse : Value → Option Int) (cols : List String)
    (r : List Value) (i : Nat) (hi : i < cols.length) (hr : r.length = cols.length) :
    (List.zipWith (fun c v => if dateColName c then coerceDate parse v else v)
        cols r).getD i Value.null =
      (if dateColName (cols.get ⟨i, hi⟩) then
        coerceDate parse (r.getD i Value.null) else r.getD i Value.null) := by
  have hir : i < r.length := by omega
  rw [List.getD_eq_getElem?_getD, List.getElem?_zipWith,
    List.getElem?_eq_getElem hi, List.getElem?_eq_getElem hir,
    List.getD_eq_getElem?_getD, List.getElem?_eq_getElem hir]
  rfl

theorem colIdx_autoParse (parse : Value → Option Int) (t : Table) (c : String) :
    colIdx (autoParseDatesTable parse t) c = colIdx t c := rfl

/-- C10: `auto_parse_dates` maps each input table independently (same number
of tables, in order); on each table it keeps the column list and the row
count unchanged; every column whose name contains `"date"` or `"_ts"`
(case-insensitively) is converted cell-wise by the datetime parser with
unparseable entries becoming missing, and every other column is returned
unchanged. -/
theorem claim_C10_auto_parse_dates (parse : Value → Option Int)
    (dfs : List Table) (t : Table) (c : String) :
    (auto_parse_dates parse dfs).length = dfs.length ∧
    auto_parse_dates parse dfs = dfs.map (autoParseDatesTable parse) ∧
    (autoParseDatesTable parse t).cols = t.cols ∧
    (autoParseDatesTable parse t).rows.length = t.rows.length ∧
    (∀ v, parse v = none → coerceDate parse v = Value.null) ∧
    ((∀ r ∈ t.rows, r.length = t.cols.length) →
      (dateColName c = true →
        getColVals (autoParseDatesTable parse t) c =
          (getColVals t c).map (fun vs => vs.map (coerceDate parse))) ∧
      (dateColName c = false →
        getColVals (autoParseDatesTable parse t) c = getColVals t c)) := by
  refine ⟨by simp [auto_parse_dates], rfl, rfl, by simp [autoParseDatesTable], ?_, ?_⟩
  · intro v hv
    unfold coerceDate
    rw [hv]
  · intro hwf
    cases hidx : colIdx t c with
    | none =>
      have hnone : getColVals t c = none := by
        unfold getColVals
        rw [hidx]
        rfl
      have hnone2 : getColVals (autoParseDatesTable parse t) c = none := by
        unfold getColVals
        rw [colIdx_autoParse, hidx]
        rfl
      exact ⟨fun _ => by rw [hnone, hnone2]; rfl, fun _ => by rw [hnone, hnone2]⟩
    | some i =>
      obtain ⟨hi, hci, -⟩ :=
        (List.findIdx?_eq_some_iff_getElem).mp hidx
      have hceq : t.cols.get ⟨i, hi⟩ = c := by simpa using hci
      have hvals : getColVals t c = some (t.rows.map (fun r => r.getD i Value.null)) := by
        unfold getColVals
        rw [hidx]
        rfl
      have hvals2 : getColVals (autoParseDatesTable parse t) c =
          some ((autoParseDatesTable parse t).rows.map (fun r => r.getD i Value.null)) := by
        unfold getColVals
        rw [colIdx_autoParse, hidx]
        rfl
      constructor
      · intro hdate
        rw [hvals, hvals2]
        unfold autoParseDatesTable
        simp only [List.map_map, Option.map_some']
        congr 1
        apply List.map_congr_left
        intro r hr
        simp only [Function.comp]
        rw [autoParse_cell parse t.cols r i hi (hwf r hr), hceq, hdate]
        simp
      · intro hdate
        rw [hvals, hvals2]
        unfold autoParseDatesTable
        simp only [List.map_map]
        congr 1
        apply List.map_congr_left
        intro r hr
        simp only [Function.comp]
        rw [autoParse_cell parse t.cols r i hi (hwf r hr), hceq, hdate]
        simp

/-- C10 witness: the frame conditions at a concrete two-column table — the
`order_ts` column is parsed, the `order_code` column is untouched. -/
theorem claim_C10_auto_parse_dates_witness :
    (∀ r ∈ (⟨["order_code", "order_ts"], [Dtype.string, Dtype.string],
        [[Value.str "o1", Value.str "2024-01-01"]]⟩ : Table).rows,
      r.length = 2) ∧
    (dateColName "order_ts" = true →
      getColVals (autoParseDatesTable (fun _ => none)
          ⟨["order_code", "order_ts"], [Dtype.string, Dtype.string],
            [[Value.str "o1", Value.str "2024-01-01"]]⟩) "order_ts" =
        (getColVals ⟨["order_code", "order_ts"], [Dtype.string, Dtype.string],
            [[Value.str "o1", Value.str "2024-01-01"]]⟩ "order_ts").map
          (fun vs => vs.map (coerceDate (fun _ => none)))) ∧
    (dateColName "order_ts" = false →
      getColVals (autoParseDatesTable (fun _ => none)
          ⟨["order_code", "order_ts"], [Dtype.string, Dtype.string],
            [[Value.str "o1", Value.str "2024-01-01"]]⟩) "order_ts" =
        getColVals ⟨["order_code", "order_ts"], [Dtype.string, Dtype.string],
            [[Value.str "o1", Value.str "2024-01-01"]]⟩ "order_ts") :=
  ⟨by decide,
   (claim_C10_auto_parse_dates (fun _ => none) []
      ⟨["order_code", "order_ts"], [Dtype.string, Dtype.string],
        [[Value.str "o1", Value.str "2024-01-01"]]⟩ "order_ts").2.2.2.2.2
     (by decide)⟩

end BIProj
